import Mathlib

/-!
Verification development for the StreamForge robust auto-transcoder
(robust-transcoder.py).  The supervisor is shallowly embedded as pure
Lean functions over an explicit system state: lock files and sidecar
pid files are association lists keyed by stream name, OS-level advisory
locks (flock) are tracked per file inode, and the OS process table is a
list of live ffmpeg worker processes plus a liveness predicate on pids.
-/

namespace StreamForge

/-- One live ffmpeg worker process, as seen in the OS process table.
The field respondsTerm models whether the encoder exits within the
bounded wait after receiving a graceful termination signal; signaled
records that a termination signal has been delivered. -/
structure Worker where
  pid : Nat
  stream : String
  respondsTerm : Bool
  signaled : Bool
deriving DecidableEq

/-- System state shared between supervisor instances: the lock
directory (stream name paired with the inode of its .lock file), the
contents of each inode (the recorded owner pid, none when the file is
empty or unparsable, matching int() failing on the stripped text), the
OS advisory-lock table per inode, the fd bookkeeping of acquired locks
(pid, stream, inode), the sidecar .lock.pid files, pid liveness, the
process table of ffmpeg workers and fresh-name counters. -/
structure Sys where
  lockFiles : List (String × Nat)
  lockContent : Nat → Option Nat
  flockHolder : Nat → Option Nat
  heldLocks : List (Nat × String × Nat)
  pidFiles : List (String × Nat)
  alive : Nat → Bool
  workers : List Worker
  nextInode : Nat
  nextPid : Nat

/-- Ingest URL embedded in the worker command line for one stream,
from the f-string rtmp://localhost:1935/live/stream_name. -/
def urlOf (s : String) : String := "rtmp://localhost:1935/live/" ++ s

/-- Per-stream HLS output directory, from hls_base_dir/stream_name. -/
def streamDir (s : String) : String := "/tmp/hls_shared/" ++ s

/-- The ffmpeg launch argument list built by start_transcoder
(robust-transcoder.py lines 125-170), reproduced argument for
argument. -/
def ffmpegCmd (s : String) : List String :=
  ["ffmpeg", "-y",
   "-i", urlOf s,
   "-hide_banner", "-loglevel", "error",
   "-fflags", "+genpts",
   "-avoid_negative_ts", "make_zero",
   "-map", "0:v:0", "-map", "0:a:0",
   "-map", "0:v:0", "-map", "0:a:0",
   "-map", "0:v:0", "-map", "0:a:0",
   "-c:v:0", "libx264", "-preset", "veryfast", "-tune", "zerolatency",
   "-g", "60", "-keyint_min", "60", "-sc_threshold", "0",
   "-force_key_frames", "expr:gte(t,n_forced*2)",
   "-filter:v:0", "scale=w=1280:h=720:force_original_aspect_ratio=decrease:force_divisible_by=2",
   "-b:v:0", "2800k", "-maxrate:v:0", "3000k", "-bufsize:v:0", "2800k",
   "-c:a:0", "aac", "-b:a:0", "128k", "-ac", "2", "-ar", "44100",
   "-c:v:1", "libx264", "-preset", "veryfast", "-tune", "zerolatency",
   "-g", "60", "-keyint_min", "60", "-sc_threshold", "0",
   "-force_key_frames", "expr:gte(t,n_forced*2)",
   "-filter:v:1", "scale=w=854:h=480:force_original_aspect_ratio=decrease:force_divisible_by=2",
   "-b:v:1", "1400k", "-maxrate:v:1", "1500k", "-bufsize:v:1", "1400k",
   "-c:a:1", "aac", "-b:a:1", "96k", "-ac", "2", "-ar", "44100",
   "-c:v:2", "libx264", "-preset", "veryfast", "-tune", "zerolatency",
   "-g", "60", "-keyint_min", "60", "-sc_threshold", "0",
   "-force_key_frames", "expr:gte(t,n_forced*2)",
   "-filter:v:2", "scale=w=640:h=360:force_original_aspect_ratio=decrease:force_divisible_by=2",
   "-b:v:2", "800k", "-maxrate:v:2", "900k", "-bufsize:v:2", "800k",
   "-c:a:2", "aac", "-b:a:2", "64k", "-ac", "2", "-ar", "44100",
   "-f", "hls", "-hls_time", "2", "-hls_list_size", "6",
   "-hls_flags", "delete_segments+independent_segments+program_date_time",
   "-hls_start_number_source", "epoch",
   "-hls_segment_type", "mpegts",
   "-master_pl_name", "master.m3u8",
   "-hls_segment_filename", streamDir s ++ "/%v/segment%03d.ts",
   "-var_stream_map", "v:0,a:0,name:720p v:1,a:1,name:480p v:2,a:2,name:360p",
   streamDir s ++ "/%v/playlist.m3u8"]

/-- The three launch arguments ahead of the input URL. -/
def ffmpegPre : List String := ["ffmpeg", "-y", "-i"]

/-- The launch arguments strictly between the input URL and the
segment filename pattern, all independent of the stream name. -/
def ffmpegMid : List String :=
  ["-hide_banner", "-loglevel", "error",
   "-fflags", "+genpts",
   "-avoid_negative_ts", "make_zero",
   "-map", "0:v:0", "-map", "0:a:0",
   "-map", "0:v:0", "-map", "0:a:0",
   "-map", "0:v:0", "-map", "0:a:0",
   "-c:v:0", "libx264", "-preset", "veryfast", "-tune", "zerolatency",
   "-g", "60", "-keyint_min", "60", "-sc_threshold", "0",
   "-force_key_frames", "expr:gte(t,n_forced*2)",
   "-filter:v:0", "scale=w=1280:h=720:force_original_aspect_ratio=decrease:force_divisible_by=2",
   "-b:v:0", "2800k", "-maxrate:v:0", "3000k", "-bufsize:v:0", "2800k",
   "-c:a:0", "aac", "-b:a:0", "128k", "-ac", "2", "-ar", "44100",
   "-c:v:1", "libx264", "-preset", "veryfast", "-tune", "zerolatency",
   "-g", "60", "-keyint_min", "60", "-sc_threshold", "0",
   "-force_key_frames", "expr:gte(t,n_forced*2)",
   "-filter:v:1", "scale=w=854:h=480:force_original_aspect_ratio=decrease:force_divisible_by=2",
   "-b:v:1", "1400k", "-maxrate:v:1", "1500k", "-bufsize:v:1", "1400k",
   "-c:a:1", "aac", "-b:a:1", "96k", "-ac", "2", "-ar", "44100",
   "-c:v:2", "libx264", "-preset", "veryfast", "-tune", "zerolatency",
   "-g", "60", "-keyint_min", "60", "-sc_threshold", "0",
   "-force_key_frames", "expr:gte(t,n_forced*2)",
   "-filter:v:2", "scale=w=640:h=360:force_original_aspect_ratio=decrease:force_divisible_by=2",
   "-b:v:2", "800k", "-maxrate:v:2", "900k", "-bufsize:v:2", "800k",
   "-c:a:2", "aac", "-b:a:2", "64k", "-ac", "2", "-ar", "44100",
   "-f", "hls", "-hls_time", "2", "-hls_list_size", "6",
   "-hls_flags", "delete_segments+independent_segments+program_date_time",
   "-hls_start_number_source", "epoch",
   "-hls_segment_type", "mpegts",
   "-master_pl_name", "master.m3u8",
   "-hls_segment_filename"]

/-- The launch arguments between the segment filename pattern and the
final playlist output pattern. -/
def ffmpegTail : List String :=
  ["-var_stream_map", "v:0,a:0,name:720p v:1,a:1,name:480p v:2,a:2,name:360p"]

/-- Characters of a list of arguments joined by single spaces, as the
python expression joining cmdline with a space does. -/
def joinSp : List String → List Char
  | [] => []
  | [a] => a.data
  | a :: b :: t => a.data ++ ' ' :: joinSp (b :: t)

/-- Full command-line text of the worker launched for stream t. -/
def cmdChars (t : String) : List Char := joinSp (ffmpegCmd t)

/-- Whether the first list is a leading segment of the second. -/
def isPrefixB : List Char → List Char → Bool
  | [], _ => true
  | _ :: _, [] => false
  | a :: p, b :: l => a == b && isPrefixB p l

/-- Whether the first list occurs contiguously inside the second, the
semantics of the python membership test of a string in a string. -/
def isInfixB (p : List Char) : List Char → Bool
  | [] => isPrefixB p []
  | b :: l => isPrefixB p (b :: l) || isInfixB p l

/-- The substring test performed by is_stream_transcoding: the probe
URL for stream s occurs inside the joined command line of a worker
transcoding stream t. -/
def matchesStream (s t : String) : Bool :=
  isInfixB (urlOf s).data (cmdChars t)

/-- Whether a process-table entry matches the probe for stream s:
the code requires the executable name ffmpeg (every Worker here is an
ffmpeg process) and the URL substring in the command line. -/
def matchesScan (s : String) (w : Worker) : Bool := matchesStream s w.stream

/-- is_stream_transcoding: scan the process table in order and return
the pid of the first ffmpeg process whose command line contains the
stream URL (robust-transcoder.py lines 31-46). -/
def isTranscoding (s : String) (st : Sys) : Option Nat :=
  (st.workers.find? (matchesScan s)).map (fun w => w.pid)

/-- Pointwise update of a Nat-keyed function. -/
def updF (f : Nat → Option Nat) (k : Nat) (v : Option Nat) : Nat → Option Nat :=
  fun i => if i = k then v else f i

/-- Remove every entry with the given key from an association list,
as os.remove on that file path. -/
def eraseKey (s : String) (l : List (String × Nat)) : List (String × Nat) :=
  l.filter (fun e => !(e.1 == s))

/-- Result of acquire_stream_lock (robust-transcoder.py lines 48-69):
opening the lock file with O_CREAT, O_WRONLY and O_TRUNC truncates the
existing file (or creates a fresh inode), then a non-blocking exclusive
flock either succeeds, after which the caller pid is written to the
file, or fails with the file left truncated and the fd closed.  Returns
the locked inode on success, none on failure. -/
def acquireL (p : Nat) (s : String) (st : Sys) : Option Nat × Sys :=
  match st.lockFiles.lookup s with
  | some i =>
    match st.flockHolder i with
    | some _ =>
      (none, { st with lockContent := updF st.lockContent i none })
    | none =>
      (some i, { st with
        lockContent := updF st.lockContent i (some p),
        flockHolder := updF st.flockHolder i (some p),
        heldLocks := (p, s, i) :: st.heldLocks })
  | none =>
    let i := st.nextInode
    (some i, { st with
      lockFiles := (s, i) :: st.lockFiles,
      lockContent := updF st.lockContent i (some p),
      flockHolder := updF st.flockHolder i (some p),
      heldLocks := (p, s, i) :: st.heldLocks,
      nextInode := i + 1 })

/-- release_stream_lock (lines 71-77): unlock and close the fd held by
process p for stream s.  The lock file itself stays on disk. -/
def releaseL (p : Nat) (s : String) (st : Sys) : Sys :=
  match st.heldLocks.find? (fun e => e.1 == p && e.2.1 == s) with
  | some e =>
    { st with
      heldLocks := st.heldLocks.erase e,
      flockHolder := updF st.flockHolder e.2.2 none }
  | none => st

/-- Whether cleanup_stale_locks keeps a lock-directory entry: kept
exactly when its content parses as a pid of a live process.  An entry
whose content is empty or unparsable raises ValueError in int() and is
removed; a dead recorded owner is removed. -/
def keepLock (st : Sys) (e : String × Nat) : Bool :=
  match st.lockContent e.2 with
  | some pid => st.alive pid
  | none => false

/-- Whether a lock-directory entry takes the dead-owner branch of
cleanup_stale_locks, the only branch that also unlinks the sidecar
pid file. -/
def deadOwner (st : Sys) (e : String × Nat) : Bool :=
  match st.lockContent e.2 with
  | some pid => !st.alive pid
  | none => false

/-- cleanup_stale_locks (lines 224-244): every lock file whose
recorded owner pid is dead is unlinked together with its sidecar pid
file; a lock file with empty or unparsable content is unlinked alone
(the ValueError handler removes only the lock file).  OS flocks on the
unlinked inodes are untouched: unlink does not release an advisory
lock. -/
def cleanupStale (st : Sys) : Sys :=
  { st with
    lockFiles := st.lockFiles.filter (keepLock st),
    pidFiles := st.pidFiles.filter
      (fun q => !(st.lockFiles.any (fun e => e.1 == q.1 && deadOwner st e))) }

/-- Process death: the OS removes the process from the table, releases
its advisory locks and closes its fds.  Workers spawned by the dead
supervisor keep running (they are separate processes). -/
def die (p : Nat) (st : Sys) : Sys :=
  { st with
    alive := fun q => if q = p then false else st.alive q,
    flockHolder := fun i =>
      match st.flockHolder i with
      | some q => if q = p then none else some q
      | none => none,
    heldLocks := st.heldLocks.filter (fun e => !(e.1 == p)) }

/-- Result alternatives of start_transcoder: the python function
returns True for a fresh start and False both when the stream is
already transcoding (line 107) and when the lock is busy (line 112);
the distinct exits are kept apart here. -/
inductive StartResult where
  | started
  | alreadyRunning
  | lockBusy
deriving DecidableEq, Fintype

/-- start_transcoder (lines 101-189) run by supervisor process self:
first the system-wide process scan, returning early when a matching
worker exists; then the non-blocking lock acquisition, returning early
on contention; then the launch of the ffmpeg worker (modelled as
always succeeding, with a cooperative encoder), the sidecar pid file
write, and finally the release of the lock after the bounded delay. -/
def startT (self : Nat) (s : String) (st : Sys) : StartResult × Sys :=
  match st.workers.find? (matchesScan s) with
  | some _ => (.alreadyRunning, st)
  | none =>
    match acquireL self s st with
    | (none, st1) => (.lockBusy, st1)
    | (some _, st1) =>
      let pid := st1.nextPid
      let st2 := { st1 with
        workers := st1.workers ++ [⟨pid, s, true, false⟩],
        pidFiles := (s, pid) :: eraseKey s st1.pidFiles,
        alive := fun q => if q = pid then true else st1.alive q,
        nextPid := pid + 1 }
      (.started, releaseL self s st2)

/-- Scan step of stop_transcoder: walk the process table in order; the
first matching worker is sent a termination signal; if it exits within
the bounded wait its pid is returned and it leaves the table, otherwise
the TimeoutExpired handler moves on to the next process with the
stubborn worker still alive (and now signaled).  No force kill is
issued anywhere. -/
def stopScan (s : String) : List Worker → Option Nat × List Worker
  | [] => (none, [])
  | w :: rest =>
    if matchesScan s w then
      if w.respondsTerm then (some w.pid, rest)
      else
        let r := stopScan s rest
        (r.1, { w with signaled := true } :: r.2)
    else
      let r := stopScan s rest
      (r.1, w :: r.2)

/-- stop_transcoder (lines 191-222): when a matching worker terminates
within the wait, its lock file and sidecar pid file are removed and
True is returned; when no matching worker is found (or every matching
worker outlives the wait) the function returns False without touching
any file. -/
def stopT (s : String) (st : Sys) : Bool × Sys :=
  match stopScan s st.workers with
  | (some pid, ws) =>
    (true, { st with
      workers := ws,
      alive := fun q => if q = pid then false else st.alive q,
      lockFiles := eraseKey s st.lockFiles,
      pidFiles := eraseKey s st.pidFiles })
  | (none, ws) => (false, { st with workers := ws })

/-- The fixed candidate pool enumerated by monitor_loop
(lines 262 and 292). -/
def poolList : List String :=
  ["stream1", "stream2", "stream3", "stream4", "stream5"]

/-- Streams currently reported by a live worker process, the ground
truth the reconciliation converges against. -/
def runningStreams (st : Sys) : List String := st.workers.map (fun w => w.stream)

/-- One iteration of monitor_loop (lines 252-281) run by supervisor
process self, with the poll result passed in as the desired list:
stale-lock cleanup, the pool-restricted scan for active transcoders,
then a start for each desired stream not scanned as active and a stop
for each scanned-active stream not desired. -/
def monitorCycle (self : Nat) (desired : List String) (st : Sys) : Sys :=
  let st1 := cleanupStale st
  let activeT := poolList.filter (fun p => (isTranscoding p st1).isSome)
  let newStreams := desired.filter (fun s => !(activeT.contains s))
  let st2 := newStreams.foldl (fun acc s => (startT self s acc).2) st1
  let stopped := activeT.filter (fun p => !(desired.contains p))
  stopped.foldl (fun acc s => (stopT s acc).2) st2

/-- One stream element of the parsed stats document, as inspected by
get_active_streams_from_nginx: an optional name child element (with its
text) and the presence of a publishing child element. -/
structure StreamEntry where
  name : Option String
  publishing : Bool
deriving DecidableEq

/-- Input to one poll of the ingest stats endpoint.  transportFailure
covers a requests exception or timeout; a response carries the HTTP
status and, when the body parses as XML, the list of stream elements
(none models a body on which fromstring raises). -/
inductive PollInput where
  | transportFailure
  | response (status : Nat) (body : Option (List StreamEntry))
deriving DecidableEq

/-- The collection loop of get_active_streams_from_nginx: append the
name text of every stream element that has both a name and a
publishing child. -/
def collectStreams : List StreamEntry → List String
  | [] => []
  | e :: t =>
    match e.name, e.publishing with
    | some n, true => n :: collectStreams t
    | _, _ => collectStreams t

/-- get_active_streams_from_nginx (robust-transcoder.py lines 79-99):
a non-200 status returns the empty list, any raised exception
(transport, timeout, XML parse) is absorbed by the handler returning
the empty list, and otherwise the stream elements are collected. -/
def getActiveStreams : PollInput → List String
  | .transportFailure => []
  | .response status body =>
    if status ≠ 200 then []
    else
      match body with
      | none => []
      | some entries => collectStreams entries

/-- Initial system state: an empty lock directory, no sidecar files,
no advisory locks, no workers, and the given supervisor pids alive. -/
def initSys (live : List Nat) : Sys :=
  { lockFiles := []
    lockContent := fun _ => none
    flockHolder := fun _ => none
    heldLocks := []
    pidFiles := []
    alive := fun p => live.contains p
    workers := []
    nextInode := 0
    nextPid := 100 }

/-- States reachable from an initial state by the lock-protocol steps
named in the specification: lock acquisition, lock release, stale-lock
cleanup and process death. -/
inductive Reach : Sys → Prop where
  | init (live : List Nat) : Reach (initSys live)
  | acq (p : Nat) (s : String) {st : Sys} : Reach st → Reach (acquireL p s st).2
  | rel (p : Nat) (s : String) {st : Sys} : Reach st → Reach (releaseL p s st)
  | cln {st : Sys} : Reach st → Reach (cleanupStale st)
  | dth (p : Nat) {st : Sys} : Reach st → Reach (die p st)

/-- Whether live process p currently holds a lock it acquired for
stream s and has neither released nor lost by dying. -/
def holdsAcquired (p : Nat) (s : String) (st : Sys) : Bool :=
  st.alive p && st.heldLocks.any (fun e => e.1 == p && e.2.1 == s)

/-- State of two supervisor instances racing start_transcoder for one
stream.  Each party steps through program counter 0 (the system-wide
process scan of lines 104-107), 1 (the non-blocking lock attempt of
lines 110-112), 2 (the worker launch of line 173), 3 (the delayed lock
release of lines 186-189) to 4 (returned).  The shared state is the
count of matching worker processes and the holder of the per-stream
lock; ovA and ovB record that a party acquired the lock after the
other party had already returned started. -/
structure RaceState where
  pcA : Fin 5
  pcB : Fin 5
  lock : Option Bool
  wc : Fin 3
  resA : Option StartResult
  resB : Option StartResult
  ovA : Bool
  ovB : Bool
deriving DecidableEq

/-- Program counter of one racing party (true names party A). -/
def RaceState.pcOf (st : RaceState) (p : Bool) : Fin 5 :=
  if p then st.pcA else st.pcB

/-- Result slot of one racing party. -/
def RaceState.resOf (st : RaceState) (p : Bool) : Option StartResult :=
  if p then st.resA else st.resB

/-- Update the program counter of one party. -/
def RaceState.setPc (st : RaceState) (p : Bool) (v : Fin 5) : RaceState :=
  if p then { st with pcA := v } else { st with pcB := v }

/-- Update the result slot of one party. -/
def RaceState.setRes (st : RaceState) (p : Bool) (v : Option StartResult) : RaceState :=
  if p then { st with resA := v } else { st with resB := v }

/-- Set the lock-after-other-returned marker of one party. -/
def RaceState.setOv (st : RaceState) (p : Bool) : RaceState :=
  if p then { st with ovA := true } else { st with ovB := true }

/-- One atomic step of party p inside start_transcoder: the scan
returns alreadyRunning when a worker is visible; the lock attempt
either takes the free lock or returns lockBusy; the launch makes one
more worker visible; the release frees the lock and returns
started. -/
def raceStep (p : Bool) (st : RaceState) : RaceState :=
  match (st.pcOf p).val with
  | 0 =>
    if st.wc.val ≥ 1 then (st.setPc p 4).setRes p (some .alreadyRunning)
    else st.setPc p 1
  | 1 =>
    match st.lock with
    | none =>
      let st1 := ({ st with lock := some p }).setPc p 2
      if st.resOf (!p) = some .started then st1.setOv p else st1
    | some _ => (st.setPc p 4).setRes p (some .lockBusy)
  | 2 => ({ st with wc := ⟨min (st.wc.val + 1) 2, by omega⟩ }).setPc p 3
  | 3 => (({ st with lock := none }).setPc p 4).setRes p (some .started)
  | _ => st

/-- Both parties at their first instruction, no worker, lock free. -/
def raceInit : RaceState :=
  { pcA := 0, pcB := 0, lock := none, wc := 0,
    resA := none, resB := none, ovA := false, ovB := false }

/-- Run an interleaving schedule, each entry naming the party that
executes its next atomic step. -/
def raceRun (sched : List Bool) : RaceState :=
  sched.foldl (fun st p => raceStep p st) raceInit

/-- Whether one racing party has launched its worker: it is between
launch and release, or it already returned started. -/
def launched (st : RaceState) (p : Bool) : Bool :=
  st.pcOf p == 3 || st.resOf p == some .started

/-- The outcome the at-most-one guarantee asks for: one worker exists,
one party returned started and the other alreadyRunning or
lockBusy. -/
def raceOutcomeOk (st : RaceState) : Bool :=
  st.wc.val == 1 &&
    ((st.resA == some .started &&
        (st.resB == some .alreadyRunning || st.resB == some .lockBusy)) ||
      (st.resB == some .started &&
        (st.resA == some .alreadyRunning || st.resA == some .lockBusy)))

/-- The complete set of states the race machine can reach from
raceInit, found by saturating the step relation; the theorems below
check by evaluation that it contains raceInit and is closed under both
parties' steps. -/
def raceTable : List RaceState :=
  [⟨0, 0, none, 0, none, none, false, false⟩,
   ⟨1, 0, none, 0, none, none, false, false⟩,
   ⟨0, 1, none, 0, none, none, false, false⟩,
   ⟨2, 0, some true, 0, none, none, false, false⟩,
   ⟨1, 1, none, 0, none, none, false, false⟩,
   ⟨0, 2, some false, 0, none, none, false, false⟩,
   ⟨3, 0, some true, 1, none, none, false, false⟩,
   ⟨2, 1, some true, 0, none, none, false, false⟩,
   ⟨1, 2, some false, 0, none, none, false, false⟩,
   ⟨0, 3, some false, 1, none, none, false, false⟩,
   ⟨3, 1, some true, 1, none, none, false, false⟩,
   ⟨1, 3, some false, 1, none, none, false, false⟩,
   ⟨4, 0, none, 1, some .started, none, false, false⟩,
   ⟨4, 4, none, 1, some .started, some .alreadyRunning, false, false⟩,
   ⟨3, 4, some true, 1, none, some .alreadyRunning, false, false⟩,
   ⟨4, 1, none, 1, some .started, none, false, false⟩,
   ⟨4, 2, some false, 1, some .started, none, false, true⟩,
   ⟨4, 3, some false, 2, some .started, none, false, true⟩,
   ⟨4, 4, none, 2, some .started, some .started, false, true⟩,
   ⟨4, 4, none, 1, some .started, some .lockBusy, false, false⟩,
   ⟨3, 4, some true, 1, none, some .lockBusy, false, false⟩,
   ⟨2, 4, some true, 0, none, some .lockBusy, false, false⟩,
   ⟨4, 2, some false, 0, some .lockBusy, none, false, false⟩,
   ⟨4, 3, some false, 1, some .lockBusy, none, false, false⟩,
   ⟨4, 4, none, 1, some .lockBusy, some .started, false, false⟩,
   ⟨4, 4, none, 2, some .started, some .started, true, false⟩,
   ⟨3, 4, some true, 2, none, some .started, true, false⟩,
   ⟨2, 4, some true, 1, none, some .started, true, false⟩,
   ⟨1, 4, none, 1, none, some .started, false, false⟩,
   ⟨4, 3, some false, 1, some .alreadyRunning, none, false, false⟩,
   ⟨4, 4, none, 1, some .alreadyRunning, some .started, false, false⟩,
   ⟨0, 4, none, 1, none, some .started, false, false⟩]

/-- The counterexample interleaving: party B performs its process scan
first, party A then runs its whole start call to completion, and B
resumes with the lock attempt, launch and release. -/
def badSched : List Bool := [false, true, true, true, true, false, false, false]

/-- A reference interleaving in which party A runs its whole start
call before party B begins. -/
def seqSched : List Bool := [true, true, true, true, false, false, false, false]

/-- Lock-protocol trace exhibiting two simultaneous acquired locks:
process 1 acquires the lock for gamma, process 2 makes a failing
acquire attempt (truncating the lock file), stale-lock cleanup treats
the now-empty lock file as malformed and unlinks it while process 1
still holds the OS lock on its inode, and process 3 then acquires a
fresh lock file for the same stream. -/
def c1Bad : Sys :=
  (acquireL 3 "gamma"
    (cleanupStale (acquireL 2 "gamma" (acquireL 1 "gamma" (initSys [1, 2, 3])).2).2)).2

/-- State with a single worker for beta that ignores the graceful
termination signal, plus its lock and sidecar files. -/
def c5Ex : Sys :=
  { initSys [1] with
    workers := [⟨50, "beta", false, false⟩],
    lockFiles := [("beta", 7)],
    pidFiles := [("beta", 50)] }

/-- State with no worker for delta but leftover lock and sidecar
files. -/
def c6Ex : Sys :=
  { initSys [1] with
    lockFiles := [("delta", 3)],
    pidFiles := [("delta", 44)] }

/-- State with a lock file for gamma whose content is unreadable (the
initial content map reads none for every inode) next to a sidecar pid
file. -/
def c8Ex : Sys :=
  { initSys [1] with
    lockFiles := [("gamma", 5)],
    pidFiles := [("gamma", 44)] }

/-- State with one live worker for the out-of-pool stream alpha and
nothing else. -/
def c3Ex : Sys :=
  { initSys [1] with workers := [⟨60, "alpha", true, false⟩] }

/-- Modelled from the spec: the contract of Stream Discovery.poll in
section 4.1 of the design, stated independently of the collection
loop: on a well-formed 200 response the names of exactly the entries
carrying both a name and a publishing element, and the empty set on
every failing input. -/
def pollContract (inp : PollInput) : List String :=
  match inp with
  | .transportFailure => []
  | .response status body =>
    match body with
    | none => []
    | some entries =>
      if status = 200 then
        entries.filterMap (fun e => if e.publishing then e.name else none)
      else []

/- ===================== theorems ===================== -/

theorem isPrefixB_append_self (p t : List Char) : isPrefixB p (p ++ t) = true := by
  induction p with
  | nil => rfl
  | cons a p ih => simp [isPrefixB, ih]

theorem isInfixB_of_isPrefixB (p l : List Char) (h : isPrefixB p l = true) :
    isInfixB p l = true := by
  cases l with
  | nil => simpa [isInfixB] using h
  | cons b t => simp [isInfixB, h]

theorem isInfixB_append (pre p suf : List Char) :
    isInfixB p (pre ++ (p ++ suf)) = true := by
  induction pre with
  | nil => exact isInfixB_of_isPrefixB _ _ (isPrefixB_append_self p suf)
  | cons a pre ih =>
    rw [List.cons_append, isInfixB, ih, Bool.or_true]

theorem cmdChars_split (s : String) :
    cmdChars s =
      "ffmpeg -y -i ".data ++
        ((urlOf s).data ++ (' ' :: joinSp ((ffmpegCmd s).drop 4))) := rfl

theorem matchesStream_self (s : String) : matchesStream s s = true := by
  rw [matchesStream, cmdChars_split]
  exact isInfixB_append _ _ _

theorem collectStreams_eq (l : List StreamEntry) :
    collectStreams l = l.filterMap (fun e => if e.publishing then e.name else none) := by
  induction l with
  | nil => rfl
  | cons e t ih =>
    cases hn : e.name with
    | none => cases hp : e.publishing <;> simp [collectStreams, hn, hp, ih, List.filterMap_cons]
    | some n => cases hp : e.publishing <;> simp [collectStreams, hn, hp, ih, List.filterMap_cons]

/-- C7: poll returns exactly the names of the entries in the stats
document that carry both a name element and a publishing element,
and on transport failure, timeout, non-200 status or a malformed
response it returns the empty list instead of raising. -/
theorem poll_contract_holds (inp : PollInput) :
    getActiveStreams inp = pollContract inp := by
  cases inp with
  | transportFailure => rfl
  | response status body =>
    cases body with
    | none => by_cases h : status = 200 <;> simp [getActiveStreams, pollContract, h]
    | some entries =>
      by_cases h : status = 200 <;>
        simp [getActiveStreams, pollContract, h, collectStreams_eq]

/-- C10: when the lock for stream s is recorded in its lock file and
another process holds the OS lock, an acquire attempt returns busy,
yet the lock file content has been truncated away by the O_TRUNC open
that precedes the flock call, erasing the recorded owner pid. -/
theorem busy_acquire_truncates (p q : Nat) (s : String) (i : Nat) (st : Sys)
    (hlk : st.lockFiles.lookup s = some i)
    (hold : st.flockHolder i = some q)
    (_hrec : st.lockContent i = some q)
    (_halive : st.alive q = true) :
    (acquireL p s st).1 = none ∧ (acquireL p s st).2.lockContent i = none := by
  simp [acquireL, hlk, hold, updF]

theorem busy_acquire_truncates_witness :
    ((acquireL 1 "gamma" (initSys [1, 2, 3])).2.lockFiles.lookup "gamma" = some 0 ∧
      (acquireL 1 "gamma" (initSys [1, 2, 3])).2.flockHolder 0 = some 1 ∧
      (acquireL 1 "gamma" (initSys [1, 2, 3])).2.lockContent 0 = some 1 ∧
      (acquireL 1 "gamma" (initSys [1, 2, 3])).2.alive 1 = true) ∧
    (acquireL 2 "gamma" (acquireL 1 "gamma" (initSys [1, 2, 3])).2).1 = none ∧
    (acquireL 2 "gamma" (acquireL 1 "gamma" (initSys [1, 2, 3])).2).2.lockContent 0 = none :=
  ⟨⟨by decide, by decide, by decide, by decide⟩,
    busy_acquire_truncates 2 1 "gamma" 0 _ (by decide) (by decide) (by decide) (by decide)⟩

theorem lookup_eq_none_of_keys (l : List (String × Nat)) (s : String)
    (h : ∀ e ∈ l, e.1 ≠ s) : l.lookup s = none := by
  induction l with
  | nil => rfl
  | cons a t ih =>
    have ha : a.1 ≠ s := h a (List.mem_cons_self a t)
    cases a with
    | mk k v =>
      have hbeq : (s == k) = false := beq_eq_false_iff_ne.mpr (Ne.symm ha)
      simp only [List.lookup]
      rw [hbeq]
      exact ih (fun e he => h e (List.mem_cons_of_mem _ he))

theorem lookup_filter_none (l : List (String × Nat)) (p : String × Nat → Bool) (s : String)
    (h : ∀ e ∈ l, e.1 = s → p e = false) : (l.filter p).lookup s = none := by
  refine lookup_eq_none_of_keys _ _ (fun e he hes => ?_)
  have hmem := List.mem_filter.mp he
  have := h e hmem.1 hes
  rw [this] at hmem
  exact absurd hmem.2 (by simp)

theorem lookup_filter_keep (l : List (String × Nat)) (p : String × Nat → Bool) (s : String)
    (h : ∀ e ∈ l, e.1 = s → p e = true) : (l.filter p).lookup s = l.lookup s := by
  induction l with
  | nil => rfl
  | cons a t ih =>
    have ih2 := ih (fun e he hes => h e (List.mem_cons_of_mem _ he) hes)
    cases a with
    | mk k v =>
      by_cases hk : k = s
      · subst hk
        have hp : p (k, v) = true := h (k, v) (List.mem_cons_self _ _) rfl
        simp [List.filter_cons, hp, List.lookup]
      · have hbeq : (s == k) = false := beq_eq_false_iff_ne.mpr (Ne.symm hk)
        cases hp : p (k, v) <;> simp [List.filter_cons, hp, List.lookup, hbeq, ih2]

theorem key_unique (l : List (String × Nat)) (s : String) (i : Nat)
    (hnd : (l.map Prod.fst).Nodup) (hm : (s, i) ∈ l) :
    ∀ e ∈ l, e.1 = s → e = (s, i) := by
  induction l with
  | nil => cases hm
  | cons a t ih =>
    rw [List.map_cons, List.nodup_cons] at hnd
    intro e he hes
    rcases List.mem_cons.mp hm with ha | hmt
    · rcases List.mem_cons.mp he with rfl | het
      · exact ha.symm
      · have h1 : s ∈ t.map Prod.fst := List.mem_map.mpr ⟨e, het, hes⟩
        have h2 : s ∉ t.map Prod.fst := by
          have h3 := hnd.1
          rw [← ha] at h3
          exact h3
        exact absurd h1 h2
    · rcases List.mem_cons.mp he with rfl | het
      · have h1 : s ∈ t.map Prod.fst := List.mem_map.mpr ⟨(s, i), hmt, rfl⟩
        have h2 : s ∉ t.map Prod.fst := by
          rw [← hes]
          exact hnd.1
        exact absurd h1 h2
      · exact ih hnd.2 hmt e het hes

/-- C8 (amended): cleanup removes every lock file whose recorded owner
is dead or unreadable, and a subsequent acquire for that stream
succeeds; the sidecar pid file however is deleted only in the
dead-owner case, while in the unreadable case it is left behind. -/
theorem reclaim_stale (p : Nat) (s : String) (i : Nat) (st : Sys)
    (hnd : (st.lockFiles.map Prod.fst).Nodup)
    (hm : (s, i) ∈ st.lockFiles)
    (hstale : keepLock st (s, i) = false) :
    (cleanupStale st).lockFiles.lookup s = none ∧
    (deadOwner st (s, i) = true →
      (cleanupStale st).pidFiles.lookup s = none) ∧
    (st.lockContent i = none →
      (cleanupStale st).pidFiles.lookup s = st.pidFiles.lookup s) ∧
    (acquireL p s (cleanupStale st)).1.isSome = true := by
  have huniq := key_unique st.lockFiles s i hnd hm
  have hlocknone : (cleanupStale st).lockFiles.lookup s = none := by
    refine lookup_filter_none _ _ _ (fun e he hes => ?_)
    rw [huniq e he hes]
    exact hstale
  refine ⟨hlocknone, fun hdead => ?_, fun hmal => ?_, ?_⟩
  · refine lookup_filter_none _ _ _ (fun q hq hqs => ?_)
    have hany : st.lockFiles.any (fun e => e.1 == q.1 && deadOwner st e) = true := by
      refine List.any_eq_true.mpr ⟨(s, i), hm, ?_⟩
      simp [hqs, hdead]
    simp [hany]
  · refine lookup_filter_keep _ _ _ (fun q hq hqs => ?_)
    have hany : st.lockFiles.any (fun e => e.1 == q.1 && deadOwner st e) = false := by
      refine List.any_eq_false.mpr (fun e he => ?_)
      by_cases hes : e.1 = s
      · have := huniq e he hes
        subst this
        simp [deadOwner, hmal]
      · have : (e.1 == q.1) = false := by
          rw [hqs]
          exact beq_eq_false_iff_ne.mpr hes
        simp [this]
    simp [hany]
  · simp [acquireL, hlocknone]

theorem reclaim_stale_witness :
    ((c8Ex.lockFiles.map Prod.fst).Nodup ∧ ("gamma", 5) ∈ c8Ex.lockFiles ∧
      keepLock c8Ex ("gamma", 5) = false) ∧
    ((cleanupStale c8Ex).lockFiles.lookup "gamma" = none ∧
      (deadOwner c8Ex ("gamma", 5) = true →
        (cleanupStale c8Ex).pidFiles.lookup "gamma" = none) ∧
      (c8Ex.lockContent 5 = none →
        (cleanupStale c8Ex).pidFiles.lookup "gamma" = c8Ex.pidFiles.lookup "gamma") ∧
      (acquireL 1 "gamma" (cleanupStale c8Ex)).1.isSome = true) :=
  ⟨⟨by decide, by decide, by decide⟩,
    reclaim_stale 1 "gamma" 5 c8Ex (by decide) (by decide) (by decide)⟩

/-- C8 as stated is false: for a lock file whose recorded owner is
unreadable, cleanup deletes the lock file but leaves the derived
sidecar pid file in place. -/
theorem reclaim_stale_counterexample :
    keepLock c8Ex ("gamma", 5) = false ∧
    (cleanupStale c8Ex).lockFiles = [] ∧
    (cleanupStale c8Ex).pidFiles = [("gamma", 44)] := by decide

theorem stopScan_none (s : String) (l : List Worker)
    (h : ∀ x ∈ l, matchesScan s x = false) : stopScan s l = (none, l) := by
  induction l with
  | nil => rfl
  | cons w t ih =>
    have hw := h w (List.mem_cons_self w t)
    have ih2 := ih (fun x hx => h x (List.mem_cons_of_mem _ hx))
    simp [stopScan, hw, ih2]

theorem stopScan_skip (s : String) (pre rest : List Worker)
    (h : ∀ x ∈ pre, matchesScan s x = false) :
    stopScan s (pre ++ rest) = ((stopScan s rest).1, pre ++ (stopScan s rest).2) := by
  induction pre with
  | nil => rfl
  | cons w t ih =>
    have hw := h w (List.mem_cons_self w t)
    have ih2 := ih (fun x hx => h x (List.mem_cons_of_mem _ hx))
    simp [stopScan, hw, ih2]

/-- C5 (amended): stop locates the matching worker and sends it a
graceful termination signal; when the worker exits within the bounded
wait, stop returns true with the worker gone from the process table
and the lock and sidecar files removed; when the wait times out the
worker is not force-killed: it stays in the process table (alive,
merely signaled), stop skips it, returns false and cleans up
nothing. -/
theorem stop_no_force_kill (s : String) (st : Sys) (w : Worker) (pre post : List Worker)
    (hw : st.workers = pre ++ w :: post)
    (hmatch : matchesScan s w = true)
    (hpre : ∀ x ∈ pre, matchesScan s x = false)
    (hpost : ∀ x ∈ post, matchesScan s x = false) :
    (w.respondsTerm = true →
      (stopT s st).1 = true ∧
      (stopT s st).2.workers = pre ++ post ∧
      (∀ x ∈ (stopT s st).2.workers, matchesScan s x = false) ∧
      (stopT s st).2.alive w.pid = false ∧
      (stopT s st).2.lockFiles = eraseKey s st.lockFiles ∧
      (stopT s st).2.pidFiles = eraseKey s st.pidFiles) ∧
    (w.respondsTerm = false →
      (stopT s st).1 = false ∧
      (stopT s st).2.workers = pre ++ { w with signaled := true } :: post ∧
      (stopT s st).2.alive = st.alive ∧
      (stopT s st).2.lockFiles = st.lockFiles ∧
      (stopT s st).2.pidFiles = st.pidFiles) := by
  constructor
  · intro hresp
    have hscan : stopScan s st.workers = (some w.pid, pre ++ post) := by
      rw [hw, stopScan_skip s pre _ hpre]
      simp [stopScan, hmatch, hresp]
    refine ⟨?_, ?_, ?_, ?_, ?_, ?_⟩ <;>
      simp only [stopT, hscan] <;>
      first
        | rfl
        | simp only [if_pos rfl]
        | (intro x hx
           rcases List.mem_append.mp hx with hx1 | hx1
           · exact hpre x hx1
           · exact hpost x hx1)
  · intro hresp
    have hscan : stopScan s st.workers =
        (none, pre ++ { w with signaled := true } :: post) := by
      rw [hw, stopScan_skip s pre _ hpre]
      simp [stopScan, hmatch, hresp, stopScan_none s post hpost]
    refine ⟨?_, ?_, ?_, ?_, ?_⟩ <;> simp only [stopT, hscan]

theorem stop_no_force_kill_witness :
    (c5Ex.workers = [] ++ (⟨50, "beta", false, false⟩ : Worker) :: [] ∧
      matchesScan "beta" (⟨50, "beta", false, false⟩ : Worker) = true) ∧
    ((stopT "beta" c5Ex).1 = false ∧
      (stopT "beta" c5Ex).2.workers =
        [] ++ (⟨50, "beta", false, true⟩ : Worker) :: [] ∧
      (stopT "beta" c5Ex).2.alive = c5Ex.alive ∧
      (stopT "beta" c5Ex).2.lockFiles = c5Ex.lockFiles ∧
      (stopT "beta" c5Ex).2.pidFiles = c5Ex.pidFiles) :=
  ⟨⟨rfl, by decide⟩,
    (stop_no_force_kill "beta" c5Ex ⟨50, "beta", false, false⟩ [] []
      rfl (by decide) (by simp) (by simp)).2 rfl⟩

/-- C5 as stated is false: a worker that outlives the bounded wait is
never force-killed; stop leaves it alive in the process table and
returns failure instead of Stopped. -/
theorem stop_counterexample :
    (stopT "beta" c5Ex).1 = false ∧
    (stopT "beta" c5Ex).2.workers = [⟨50, "beta", false, true⟩] ∧
    matchesScan "beta" (⟨50, "beta", false, true⟩ : Worker) = true := by decide

/-- C6 (amended): when no matching worker process is found, stop
returns false and attempts no lock-file or sidecar cleanup at all —
both files are left exactly as they were. -/
theorem stop_notfound_no_cleanup (s : String) (st : Sys)
    (h : ∀ x ∈ st.workers, matchesScan s x = false) :
    (stopT s st).1 = false ∧
    (stopT s st).2.lockFiles = st.lockFiles ∧
    (stopT s st).2.pidFiles = st.pidFiles ∧
    (stopT s st).2.workers = st.workers := by
  have hscan := stopScan_none s st.workers h
  refine ⟨?_, ?_, ?_, ?_⟩ <;> simp only [stopT, hscan]

theorem stop_notfound_no_cleanup_witness :
    (∀ x ∈ c6Ex.workers, matchesScan "delta" x = false) ∧
    ((stopT "delta" c6Ex).1 = false ∧
      (stopT "delta" c6Ex).2.lockFiles = c6Ex.lockFiles ∧
      (stopT "delta" c6Ex).2.pidFiles = c6Ex.pidFiles ∧
      (stopT "delta" c6Ex).2.workers = c6Ex.workers) :=
  ⟨by simp [c6Ex, initSys], stop_notfound_no_cleanup "delta" c6Ex (by simp [c6Ex, initSys])⟩

/-- C6 as stated is false: with no matching worker, stop returns
without attempting lock or sidecar cleanup — the leftover lock file
and sidecar pid file for the stream are still present afterwards. -/
theorem stop_notfound_counterexample :
    (stopT "delta" c6Ex).1 = false ∧
    (stopT "delta" c6Ex).2.lockFiles = [("delta", 3)] ∧
    (stopT "delta" c6Ex).2.pidFiles = [("delta", 44)] := by decide

theorem find?_append_none {α : Type} (p : α → Bool) (l l2 : List α)
    (h : ∀ x ∈ l, p x = false) :
    List.find? p (l ++ l2) = List.find? p l2 := by
  induction l with
  | nil => rfl
  | cons a t ih =>
    have ha := h a (List.mem_cons_self a t)
    simp [List.find?, ha, ih (fun x hx => h x (List.mem_cons_of_mem _ hx))]

/-- C4: with no worker for s running and its lock free, the first
start call returns started, a second start call with no intervening
stop returns alreadyRunning leaving the state untouched, and the
process-table scan then observes exactly one worker for s. -/
theorem start_idempotent (self : Nat) (s : String) (st : Sys)
    (hw : ∀ w ∈ st.workers, matchesScan s w = false)
    (hlk : ∀ i, st.lockFiles.lookup s = some i → st.flockHolder i = none) :
    (startT self s st).1 = .started ∧
    startT self s (startT self s st).2 = (.alreadyRunning, (startT self s st).2) ∧
    ((startT self s st).2.workers.filter (matchesScan s)).length = 1 := by
  have hfind : st.workers.find? (matchesScan s) = none :=
    List.find?_eq_none.mpr (fun x hx => by simp [hw x hx])
  have hworkers : (startT self s st).1 = .started ∧
      (startT self s st).2.workers = st.workers ++ [⟨st.nextPid, s, true, false⟩] := by
    cases hl : st.lockFiles.lookup s with
    | some i =>
      have hhold := hlk i hl
      simp [startT, acquireL, hl, hhold, hfind, releaseL]
    | none =>
      simp [startT, acquireL, hl, hfind, releaseL]
  refine ⟨hworkers.1, ?_, ?_⟩
  · have hfind2 : (startT self s st).2.workers.find? (matchesScan s) =
        some ⟨st.nextPid, s, true, false⟩ := by
      rw [hworkers.2, find?_append_none _ _ _ hw]
      simp [List.find?, matchesScan, matchesStream_self]
    rw [startT, hfind2]
  · rw [hworkers.2, List.filter_append]
    have h1 : st.workers.filter (matchesScan s) = [] :=
      List.filter_eq_nil_iff.mpr (fun x hx => by simp [hw x hx])
    have h2 : List.filter (matchesScan s) [⟨st.nextPid, s, true, false⟩] =
        [⟨st.nextPid, s, true, false⟩] := by
      simp [List.filter, matchesScan, matchesStream_self]
    rw [h1, h2]
    rfl

theorem start_idempotent_witness :
    ((∀ w ∈ (initSys [1]).workers, matchesScan "alpha" w = false) ∧
      (∀ i, (initSys [1]).lockFiles.lookup "alpha" = some i →
        (initSys [1]).flockHolder i = none)) ∧
    ((startT 1 "alpha" (initSys [1])).1 = .started ∧
      startT 1 "alpha" (startT 1 "alpha" (initSys [1])).2 =
        (.alreadyRunning, (startT 1 "alpha" (initSys [1])).2) ∧
      (((startT 1 "alpha" (initSys [1])).2.workers.filter
          (matchesScan "alpha")).length = 1)) :=
  ⟨⟨by simp [initSys], by simp [initSys]⟩,
    start_idempotent 1 "alpha" (initSys [1]) (by simp [initSys])
      (by simp [initSys])⟩

theorem ne_of_head (x y : String) (c d : Char)
    (hx : x.data.head? = some c) (hy : y.data.head? = some d) (hcd : c ≠ d) :
    (x == y) = false := by
  refine beq_eq_false_iff_ne.mpr (fun h => ?_)
  subst h
  rw [hx] at hy
  exact hcd (Option.some.inj hy)

theorem url_head (s : String) : (urlOf s).data.head? = some 'r' := by
  rw [urlOf, String.data_append]
  rfl

theorem seg_head (s : String) :
    (streamDir s ++ "/%v/segment%03d.ts").data.head? = some '/' := by
  rw [String.data_append, streamDir, String.data_append]
  rfl

theorem pl_head (s : String) :
    (streamDir s ++ "/%v/playlist.m3u8").data.head? = some '/' := by
  rw [String.data_append, streamDir, String.data_append]
  rfl

theorem cmd_decomp (s : String) :
    ffmpegCmd s =
      ffmpegPre ++ urlOf s ::
        (ffmpegMid ++ (streamDir s ++ "/%v/segment%03d.ts") ::
          (ffmpegTail ++ [streamDir s ++ "/%v/playlist.m3u8"])) := rfl

theorem count_cmd (s F : String) (hF : F.data.head? = some '-') :
    (ffmpegCmd s).count F =
      ffmpegPre.count F + ffmpegMid.count F + ffmpegTail.count F := by
  rw [cmd_decomp]
  simp only [List.count_append, List.count_cons, List.count_singleton,
    ne_of_head (urlOf s) F 'r' '-' (url_head s) hF (by decide),
    ne_of_head (streamDir s ++ "/%v/segment%03d.ts") F '/' '-' (seg_head s) hF (by decide),
    ne_of_head (streamDir s ++ "/%v/playlist.m3u8") F '/' '-' (pl_head s) hF (by decide),
    if_false]
  simp
  omega

/-- C9: for every stream the launch command is the same fixed argument
list up to the three stream-derived strings: it has constant length,
consumes exactly one input (the stream URL), defines exactly three
renditions, each with its own bitrate ceiling, fixed keyframe interval
and disabled scene-cut keyframes (closed GOPs), uses two-second
segments with a six-segment rolling window and stale-segment deletion,
and emits a master manifest mapping all three renditions. -/
theorem launch_contract (s : String) :
    (ffmpegCmd s).length = 132 ∧
    (ffmpegCmd s).count "-i" = 1 ∧
    ["-i", urlOf s] <:+: ffmpegCmd s ∧
    ((ffmpegCmd s).count "-c:v:0" = 1 ∧ (ffmpegCmd s).count "-c:v:1" = 1 ∧
      (ffmpegCmd s).count "-c:v:2" = 1 ∧ (ffmpegCmd s).count "-c:v:3" = 0) ∧
    ["-c:v:0", "libx264", "-preset", "veryfast", "-tune", "zerolatency",
     "-g", "60", "-keyint_min", "60", "-sc_threshold", "0",
     "-force_key_frames", "expr:gte(t,n_forced*2)",
     "-filter:v:0", "scale=w=1280:h=720:force_original_aspect_ratio=decrease:force_divisible_by=2",
     "-b:v:0", "2800k", "-maxrate:v:0", "3000k", "-bufsize:v:0", "2800k",
     "-c:a:0", "aac", "-b:a:0", "128k", "-ac", "2", "-ar", "44100"] <:+: ffmpegCmd s ∧
    ["-c:v:1", "libx264", "-preset", "veryfast", "-tune", "zerolatency",
     "-g", "60", "-keyint_min", "60", "-sc_threshold", "0",
     "-force_key_frames", "expr:gte(t,n_forced*2)",
     "-filter:v:1", "scale=w=854:h=480:force_original_aspect_ratio=decrease:force_divisible_by=2",
     "-b:v:1", "1400k", "-maxrate:v:1", "1500k", "-bufsize:v:1", "1400k",
     "-c:a:1", "aac", "-b:a:1", "96k", "-ac", "2", "-ar", "44100"] <:+: ffmpegCmd s ∧
    ["-c:v:2", "libx264", "-preset", "veryfast", "-tune", "zerolatency",
     "-g", "60", "-keyint_min", "60", "-sc_threshold", "0",
     "-force_key_frames", "expr:gte(t,n_forced*2)",
     "-filter:v:2", "scale=w=640:h=360:force_original_aspect_ratio=decrease:force_divisible_by=2",
     "-b:v:2", "800k", "-maxrate:v:2", "900k", "-bufsize:v:2", "800k",
     "-c:a:2", "aac", "-b:a:2", "64k", "-ac", "2", "-ar", "44100"] <:+: ffmpegCmd s ∧
    ["-f", "hls", "-hls_time", "2", "-hls_list_size", "6",
     "-hls_flags", "delete_segments+independent_segments+program_date_time"] <:+:
      ffmpegCmd s ∧
    ["-master_pl_name", "master.m3u8"] <:+: ffmpegCmd s ∧
    ["-var_stream_map",
     "v:0,a:0,name:720p v:1,a:1,name:480p v:2,a:2,name:360p"] <:+: ffmpegCmd s := by
  refine ⟨rfl, ?_, ⟨["ffmpeg", "-y"], (ffmpegCmd s).drop 4, rfl⟩,
    ⟨?_, ?_, ?_, ?_⟩,
    ⟨(ffmpegCmd s).take 23, (ffmpegCmd s).drop 53, rfl⟩,
    ⟨(ffmpegCmd s).take 53, (ffmpegCmd s).drop 83, rfl⟩,
    ⟨(ffmpegCmd s).take 83, (ffmpegCmd s).drop 113, rfl⟩,
    ⟨(ffmpegCmd s).take 113, (ffmpegCmd s).drop 121, rfl⟩,
    ⟨(ffmpegCmd s).take 125, (ffmpegCmd s).drop 127, rfl⟩,
    ⟨(ffmpegCmd s).take 129, (ffmpegCmd s).drop 131, rfl⟩⟩
  · rw [count_cmd s "-i" rfl]
    decide
  · rw [count_cmd s "-c:v:0" rfl]
    decide
  · rw [count_cmd s "-c:v:1" rfl]
    decide
  · rw [count_cmd s "-c:v:2" rfl]
    decide
  · rw [count_cmd s "-c:v:3" rfl]
    decide

/-- C1 fails on the code: the state c1Bad is reachable by the very
steps the claim quantifies over (a successful acquire by process 1, a
failed acquire by process 2 that truncates the lock file, a stale-lock
cleanup that treats the truncated file as malformed and unlinks it
while the OS lock is still held, and a fresh acquire by process 3),
yet in it the two distinct live processes 1 and 3 simultaneously hold
acquired locks for the same stream. -/
theorem lock_exclusion_violated :
    Reach c1Bad ∧
    holdsAcquired 1 "gamma" c1Bad = true ∧
    holdsAcquired 3 "gamma" c1Bad = true ∧
    (1 : Nat) ≠ 3 := by
  refine ⟨?_, by decide, by decide, by decide⟩
  exact Reach.acq 3 "gamma"
    (Reach.cln (Reach.acq 2 "gamma" (Reach.acq 1 "gamma" (Reach.init [1, 2, 3]))))

/-- C2 as stated is false: under the interleaving badSched, where one
supervisor scans the process table before the other has launched its
worker and only attempts the lock after the other has already released
it, both start calls return started and two workers for the stream
exist afterwards. -/
theorem race_counterexample :
    (raceRun badSched).resA = some .started ∧
    (raceRun badSched).resB = some .started ∧
    (raceRun badSched).wc.val = 2 ∧
    raceOutcomeOk (raceRun badSched) = false := by decide

theorem raceTable_init : raceInit ∈ raceTable := by decide

theorem raceTable_closed :
    ∀ st ∈ raceTable, raceStep true st ∈ raceTable ∧ raceStep false st ∈ raceTable := by
  decide

theorem raceTable_final :
    ∀ st ∈ raceTable, st.pcA = 4 → st.pcB = 4 → st.ovA = false → st.ovB = false →
      raceOutcomeOk st = true := by
  decide

theorem raceRun_mem (sched : List Bool) : raceRun sched ∈ raceTable := by
  suffices h : ∀ (l : List Bool) (st : RaceState), st ∈ raceTable →
      l.foldl (fun st p => raceStep p st) st ∈ raceTable by
    exact h sched raceInit raceTable_init
  intro l
  induction l with
  | nil => intro st h; exact h
  | cons p t ih =>
    intro st h
    rw [List.foldl_cons]
    apply ih
    cases p
    · exact (raceTable_closed st h).2
    · exact (raceTable_closed st h).1

/-- C2 (amended): in every complete interleaving of two racing start
calls in which neither call acquires the lock only after the other
call has already returned started (the overlap markers stay false),
exactly one call returns started, the other observes alreadyRunning or
lockBusy, and exactly one worker process exists afterwards. -/
theorem race_at_most_one (sched : List Bool)
    (hA : (raceRun sched).pcA = 4) (hB : (raceRun sched).pcB = 4)
    (hovA : (raceRun sched).ovA = false) (hovB : (raceRun sched).ovB = false) :
    raceOutcomeOk (raceRun sched) = true :=
  raceTable_final (raceRun sched) (raceRun_mem sched) hA hB hovA hovB

theorem race_at_most_one_witness :
    ((raceRun seqSched).pcA = 4 ∧ (raceRun seqSched).pcB = 4 ∧
      (raceRun seqSched).ovA = false ∧ (raceRun seqSched).ovB = false) ∧
    raceOutcomeOk (raceRun seqSched) = true :=
  ⟨⟨by decide, by decide, by decide, by decide⟩,
    race_at_most_one seqSched (by decide) (by decide) (by decide) (by decide)⟩

theorem find_scan_exact (p : String) (ws : List Worker)
    (h : ∀ w ∈ ws, matchesStream p w.stream = (p == w.stream)) :
    (ws.find? (matchesScan p)).isSome = true ↔
      p ∈ ws.map (fun w => w.stream) := by
  constructor
  · intro hs
    rcases List.find?_isSome.mp hs with ⟨w, hw, hm⟩
    rw [matchesScan, h w hw] at hm
    exact List.mem_map.mpr ⟨w, hw, (eq_of_beq hm).symm⟩
  · intro hp
    rcases List.mem_map.mp hp with ⟨w, hw, hws⟩
    refine List.find?_isSome.mpr ⟨w, hw, ?_⟩
    have hh := h w hw
    rw [hws] at hh
    simp only [matchesScan, hws, hh]
    exact beq_self_eq_true p

theorem startT_already (self : Nat) (s : String) (cur : Sys) (w : Worker)
    (hfind : cur.workers.find? (matchesScan s) = some w) :
    startT self s cur = (.alreadyRunning, cur) := by
  rw [startT, hfind]

theorem startT_fresh (self : Nat) (s : String) (cur : Sys)
    (hfind : cur.workers.find? (matchesScan s) = none)
    (hflk : ∀ i, cur.flockHolder i = none)
    (hheld : cur.heldLocks = []) :
    (startT self s cur).1 = .started ∧
    (startT self s cur).2.workers = cur.workers ++ [⟨cur.nextPid, s, true, false⟩] ∧
    (∀ i, (startT self s cur).2.flockHolder i = none) ∧
    (startT self s cur).2.heldLocks = [] := by
  cases hl : cur.lockFiles.lookup s with
  | some i =>
    have hi := hflk i
    simp only [startT, acquireL, hfind, hl, hi, hheld, releaseL, List.find?,
      beq_self_eq_true, Bool.and_self, List.erase_cons_head]
    refine ⟨trivial, trivial, ?_, trivial⟩
    intro j
    by_cases hj : j = i <;> simp [updF, hj, hflk j]
  | none =>
    simp only [startT, acquireL, hfind, hl, hheld, releaseL, List.find?,
      beq_self_eq_true, Bool.and_self, List.erase_cons_head]
    refine ⟨trivial, trivial, ?_, trivial⟩
    intro j
    by_cases hj : j = cur.nextInode <;> simp [updF, hj, hflk j]

theorem contains_true_iff (l : List String) (a : String) :
    l.contains a = true ↔ a ∈ l := by
  rw [List.contains_iff_exists_mem_beq]
  constructor
  · rintro ⟨b, hb, he⟩
    rw [eq_of_beq he]
    exact hb
  · intro h
    exact ⟨a, h, beq_self_eq_true a⟩

theorem contains_false_iff (l : List String) (a : String) :
    l.contains a = false ↔ a ∉ l := by
  rw [Bool.eq_false_iff]
  constructor
  · intro h hm
    exact h ((contains_true_iff l a).mpr hm)
  · intro h hc
    exact h ((contains_true_iff l a).mp hc)

theorem startFold_spec (self : Nat) (ns : List String) :
    ∀ cur : Sys,
      ns.Nodup →
      (∀ i, cur.flockHolder i = none) →
      cur.heldLocks = [] →
      (∀ s ∈ ns, ∀ w ∈ cur.workers, matchesStream s w.stream = (s == w.stream)) →
      (∀ s ∈ ns, ∀ t ∈ ns, matchesStream s t = (s == t)) →
      ∃ extra : List Worker,
        (ns.foldl (fun acc s => (startT self s acc).2) cur).workers =
          cur.workers ++ extra ∧
        extra.map (fun w => w.stream) =
          ns.filter (fun s => !((cur.workers.map (fun w => w.stream)).contains s)) ∧
        (∀ w ∈ extra, w.respondsTerm = true) := by
  induction ns with
  | nil =>
    intro cur _ _ _ _ _
    exact ⟨[], by simp, by simp, by simp⟩
  | cons s rest ih =>
    intro cur hnd hflk hheld hexW hexN
    rw [List.foldl_cons, List.nodup_cons] at *
    by_cases hmem : s ∈ cur.workers.map (fun w => w.stream)
    · have hfind : (cur.workers.find? (matchesScan s)).isSome = true :=
        (find_scan_exact s cur.workers
          (fun w hw => hexW s (List.mem_cons_self _ _) w hw)).mpr hmem
      rcases Option.isSome_iff_exists.mp hfind with ⟨w, hw⟩
      have hstep : (startT self s cur).2 = cur := by
        rw [startT_already self s cur w hw]
      rw [hstep]
      obtain ⟨extra, h1, h2, h3⟩ := ih cur hnd.2 hflk hheld
        (fun t ht u hu => hexW t (List.mem_cons_of_mem _ ht) u hu)
        (fun t ht u hu =>
          hexN t (List.mem_cons_of_mem _ ht) u (List.mem_cons_of_mem _ hu))
      refine ⟨extra, h1, ?_, h3⟩
      have hc : ((cur.workers.map (fun w => w.stream)).contains s) = true :=
        (contains_true_iff _ _).mpr hmem
      rw [h2]
      simp only [List.filter_cons, hc, Bool.not_true, Bool.false_eq_true, if_false]
    · have hfind : cur.workers.find? (matchesScan s) = none := by
        rw [List.find?_eq_none]
        intro w hw hm
        rw [matchesScan, hexW s (List.mem_cons_self _ _) w hw] at hm
        exact hmem (List.mem_map.mpr ⟨w, hw, (eq_of_beq hm).symm⟩)
      obtain ⟨hres, hwk, hflk2, hheld2⟩ := startT_fresh self s cur hfind hflk hheld
      have hexW2 : ∀ t ∈ rest, ∀ w ∈ (startT self s cur).2.workers,
          matchesStream t w.stream = (t == w.stream) := by
        intro t ht w hw
        rw [hwk] at hw
        rcases List.mem_append.mp hw with hw1 | hw1
        · exact hexW t (List.mem_cons_of_mem _ ht) w hw1
        · have : w = ⟨cur.nextPid, s, true, false⟩ := by
            simpa using hw1
          rw [this]
          exact hexN t (List.mem_cons_of_mem _ ht) s (List.mem_cons_self _ _)
      obtain ⟨extra, h1, h2, h3⟩ := ih (startT self s cur).2 hnd.2 hflk2 hheld2 hexW2
        (fun t ht u hu =>
          hexN t (List.mem_cons_of_mem _ ht) u (List.mem_cons_of_mem _ hu))
      refine ⟨⟨cur.nextPid, s, true, false⟩ :: extra, ?_, ?_, ?_⟩
      · rw [h1, hwk, List.append_assoc]
        rfl
      · rw [List.map_cons, h2]
        have hstreams : (startT self s cur).2.workers.map (fun w => w.stream) =
            cur.workers.map (fun w => w.stream) ++ [s] := by
          rw [hwk]
          simp
        rw [hstreams, List.filter_cons]
        have hc : ((cur.workers.map (fun w => w.stream)).contains s) = false :=
          (contains_false_iff _ _).mpr hmem
        rw [hc]
        have hfc : rest.filter
              (fun t => !((cur.workers.map (fun w => w.stream) ++ [s]).contains t)) =
            rest.filter (fun t => !((cur.workers.map (fun w => w.stream)).contains t)) := by
          refine List.filter_congr (fun t ht => ?_)
          have hts : t ≠ s := fun h => hnd.1 (h ▸ ht)
          have hiff : ((cur.workers.map (fun w => w.stream) ++ [s]).contains t) =
              ((cur.workers.map (fun w => w.stream)).contains t) := by
            rw [Bool.eq_iff_iff, contains_true_iff, contains_true_iff, List.mem_append]
            simp [hts]
          rw [hiff]
        rw [hfc]
        simp
      · intro w hw
        rcases List.mem_cons.mp hw with rfl | hw2
        · rfl
        · exact h3 w hw2

theorem stopT_exact (p : String) (cur : Sys)
    (hex : ∀ w ∈ cur.workers, matchesStream p w.stream = (p == w.stream))
    (hresp : ∀ w ∈ cur.workers, w.respondsTerm = true)
    (hnd : (cur.workers.map (fun w => w.stream)).Nodup) :
    (stopT p cur).2.workers = cur.workers.filter (fun w => !(w.stream == p)) := by
  by_cases hp : p ∈ cur.workers.map (fun w => w.stream)
  · rcases List.mem_map.mp hp with ⟨w, hw, hws⟩
    rcases List.append_of_mem hw with ⟨pre, post, hsplit⟩
    have hndsplit := hnd
    rw [hsplit] at hndsplit
    rw [List.map_append, List.map_cons] at hndsplit
    have hwpre : ∀ x ∈ pre, (x.stream == p) = false := by
      intro x hx
      refine beq_eq_false_iff_ne.mpr (fun hxs => ?_)
      have : w.stream ∈ pre.map (fun w => w.stream) := by
        rw [hws, ← hxs]
        exact List.mem_map_of_mem _ hx
      exact (List.disjoint_of_nodup_append hndsplit) this (List.mem_cons_self _ _)
    have hwpost : ∀ x ∈ post, (x.stream == p) = false := by
      intro x hx
      refine beq_eq_false_iff_ne.mpr (fun hxs => ?_)
      have hnd2 := (List.nodup_append.mp hndsplit).2.1
      rw [List.nodup_cons] at hnd2
      apply hnd2.1
      rw [hws, ← hxs]
      exact List.mem_map_of_mem _ hx
    have hmpre : ∀ x ∈ pre, matchesScan p x = false := by
      intro x hx
      rw [matchesScan, hex x (by rw [hsplit]; exact List.mem_append_left _ hx)]
      rw [Bool.eq_iff_iff]
      simp only [beq_iff_eq]
      constructor
      · intro h
        rw [h] at hwpre
        have := hwpre x hx
        simp at this
      · intro h
        cases h
    have hmpost : ∀ x ∈ post, matchesScan p x = false := by
      intro x hx
      rw [matchesScan, hex x (by
        rw [hsplit]
        exact List.mem_append_right _ (List.mem_cons_of_mem _ hx))]
      rw [Bool.eq_iff_iff]
      simp only [beq_iff_eq]
      constructor
      · intro h
        rw [h] at hwpost
        have := hwpost x hx
        simp at this
      · intro h
        cases h
    have hmw : matchesScan p w = true := by
      rw [matchesScan, hex w hw, hws]
      exact beq_self_eq_true p
    have hrw : w.respondsTerm = true := hresp w hw
    have hscan : stopScan p cur.workers = (some w.pid, pre ++ post) := by
      rw [hsplit, stopScan_skip p pre _ hmpre]
      simp [stopScan, hmw, hrw]
    have hfilter : cur.workers.filter (fun w => !(w.stream == p)) = pre ++ post := by
      rw [hsplit, List.filter_append, List.filter_cons]
      have hwp : (w.stream == p) = true := by
        rw [hws]
        exact beq_self_eq_true p
      rw [hwp]
      have h1 : pre.filter (fun w => !(w.stream == p)) = pre :=
        List.filter_eq_self.mpr (fun x hx => by rw [hwpre x hx]; rfl)
      have h2 : post.filter (fun w => !(w.stream == p)) = post :=
        List.filter_eq_self.mpr (fun x hx => by rw [hwpost x hx]; rfl)
      rw [h1, h2]
      simp
    rw [hfilter]
    simp only [stopT, hscan]
  · have hnm : ∀ x ∈ cur.workers, matchesScan p x = false := by
      intro x hx
      rw [matchesScan, hex x hx]
      refine beq_eq_false_iff_ne.mpr (fun hxs => ?_)
      exact hp (List.mem_map.mpr ⟨x, hx, hxs.symm⟩)
    have hscan := stopScan_none p cur.workers hnm
    have hfilter : cur.workers.filter (fun w => !(w.stream == p)) = cur.workers :=
      List.filter_eq_self.mpr (fun x hx => by
        rw [beq_eq_false_iff_ne.mpr (fun hxs : x.stream = p =>
          hp (List.mem_map.mpr ⟨x, hx, hxs⟩))]
        rfl)
    rw [hfilter]
    simp only [stopT, hscan]

theorem stopFold_spec (ps : List String) :
    ∀ cur : Sys,
      (∀ p ∈ ps, ∀ w ∈ cur.workers, matchesStream p w.stream = (p == w.stream)) →
      (∀ w ∈ cur.workers, w.respondsTerm = true) →
      (cur.workers.map (fun w => w.stream)).Nodup →
      (ps.foldl (fun acc p => (stopT p acc).2) cur).workers =
        cur.workers.filter (fun w => !(ps.contains w.stream)) := by
  induction ps with
  | nil =>
    intro cur _ _ _
    simp
  | cons p rest ih =>
    intro cur hex hresp hnd
    rw [List.foldl_cons]
    have hstep := stopT_exact p cur (hex p (List.mem_cons_self _ _)) hresp hnd
    have hsub : ∀ w ∈ (stopT p cur).2.workers, w ∈ cur.workers := by
      intro w hw
      rw [hstep] at hw
      exact (List.mem_filter.mp hw).1
    have hrec := ih (stopT p cur).2
      (fun q hq w hw => hex q (List.mem_cons_of_mem _ hq) w (hsub w hw))
      (fun w hw => hresp w (hsub w hw))
      (by
        rw [hstep]
        exact hnd.sublist ((List.filter_sublist _).map _))
    rw [hrec, hstep, List.filter_filter]
    refine List.filter_congr (fun w hw => ?_)
    rw [List.contains_cons, Bool.not_or]
    rw [Bool.eq_iff_iff]
    simp [And.comm]

/-- C3 (amended): one reconciliation cycle with no launch or stop
failures, no concurrently held locks, one worker per running stream,
prefix-unambiguous stream names (the command-line substring probe is
exact on the names involved) and every running out-of-pool stream
still desired, ends with the running set equal to the desired set. -/
theorem converge (self : Nat) (desired : List String) (st : Sys)
    (hnd : desired.Nodup)
    (hwnd : (st.workers.map (fun w => w.stream)).Nodup)
    (hout : ∀ w ∈ st.workers, w.stream ∈ poolList ∨ w.stream ∈ desired)
    (hresp : ∀ w ∈ st.workers, w.respondsTerm = true)
    (hflk : ∀ i, st.flockHolder i = none)
    (hheld : st.heldLocks = [])
    (hex : ∀ s, s ∈ poolList ∨ s ∈ desired →
      ∀ t, t ∈ st.workers.map (fun w => w.stream) ∨ t ∈ desired →
        matchesStream s t = (s == t)) :
    ∀ x, x ∈ runningStreams (monitorCycle self desired st) ↔ x ∈ desired := by
  have hcycle : monitorCycle self desired st =
      ((poolList.filter (fun p => (isTranscoding p (cleanupStale st)).isSome)).filter
          (fun p => !(desired.contains p))).foldl (fun acc s => (stopT s acc).2)
        ((desired.filter (fun s =>
            !((poolList.filter (fun p =>
                (isTranscoding p (cleanupStale st)).isSome)).contains s))).foldl
          (fun acc s => (startT self s acc).2) (cleanupStale st)) := rfl
  have hcw : (cleanupStale st).workers = st.workers := rfl
  have hactive : ∀ p, p ∈ poolList.filter
        (fun p => (isTranscoding p (cleanupStale st)).isSome) ↔
      p ∈ poolList ∧ p ∈ st.workers.map (fun w => w.stream) := by
    intro p
    rw [List.mem_filter]
    constructor
    · rintro ⟨h1, h2⟩
      refine ⟨h1, ?_⟩
      rw [isTranscoding, Option.isSome_map'] at h2
      rw [hcw] at h2
      exact (find_scan_exact p st.workers
        (fun w hw => hex p (Or.inl h1) w.stream
          (Or.inl (List.mem_map_of_mem _ hw)))).mp h2
    · rintro ⟨h1, h2⟩
      refine ⟨h1, ?_⟩
      rw [isTranscoding, Option.isSome_map']
      rw [show (cleanupStale st).workers = st.workers from rfl]
      exact (find_scan_exact p st.workers
        (fun w hw => hex p (Or.inl h1) w.stream
          (Or.inl (List.mem_map_of_mem _ hw)))).mpr h2
  obtain ⟨extra, hst2, hextra, hrespx⟩ :=
    startFold_spec self
      (desired.filter (fun s =>
        !((poolList.filter (fun p =>
            (isTranscoding p (cleanupStale st)).isSome)).contains s)))
      (cleanupStale st)
      (hnd.filter _)
      hflk
      hheld
      (fun s hs w hw => hex s (Or.inr (List.mem_of_mem_filter hs)) w.stream
        (Or.inl (List.mem_map_of_mem _ hw)))
      (fun s hs t ht => hex s (Or.inr (List.mem_of_mem_filter hs)) t
        (Or.inr (List.mem_of_mem_filter ht)))
  rw [hcw] at hst2 hextra
  have hsub2 : ∀ w, w ∈ st.workers ++ extra →
      w.stream ∈ st.workers.map (fun u => u.stream) ∨ w.stream ∈ desired := by
    intro w hw
    rcases List.mem_append.mp hw with h | h
    · exact Or.inl (List.mem_map_of_mem _ h)
    · right
      have : w.stream ∈ extra.map (fun u => u.stream) := List.mem_map_of_mem _ h
      rw [hextra] at this
      exact List.mem_of_mem_filter (List.mem_of_mem_filter this)
  have hstopfold := stopFold_spec
    ((poolList.filter (fun p => (isTranscoding p (cleanupStale st)).isSome)).filter
      (fun p => !(desired.contains p)))
    ((desired.filter (fun s =>
        !((poolList.filter (fun p =>
            (isTranscoding p (cleanupStale st)).isSome)).contains s))).foldl
      (fun acc s => (startT self s acc).2) (cleanupStale st))
    (by
      intro q hq w hw
      rw [hst2] at hw
      refine hex q (Or.inl (List.mem_of_mem_filter
        (List.mem_of_mem_filter hq))) w.stream (hsub2 w hw))
    (by
      intro w hw
      rw [hst2] at hw
      rcases List.mem_append.mp hw with h | h
      · exact hresp w h
      · exact hrespx w h)
    (by
      rw [hst2, List.map_append, List.nodup_append]
      refine ⟨hwnd, ?_, ?_⟩
      · rw [hextra]
        exact (hnd.filter _).filter _
      · intro a ha hb
        rw [hextra] at hb
        have hbf := List.mem_filter.mp hb
        rw [Bool.not_eq_true', contains_false_iff] at hbf
        exact hbf.2 ha)
  rw [hcycle]
  intro x
  rw [runningStreams, List.mem_map]
  constructor
  · rintro ⟨w, hw, hwx⟩
    rw [hstopfold, hst2] at hw
    have hwf := List.mem_filter.mp hw
    rcases List.mem_append.mp hwf.1 with hmem | hmem
    · by_contra hxd
      have hxA : x ∈ st.workers.map (fun u => u.stream) := by
        rw [← hwx]
        exact List.mem_map_of_mem _ hmem
      have hxp : x ∈ poolList := by
        rcases hout w hmem with h | h
        · rw [← hwx]
          exact h
        · rw [← hwx] at hxd
          exact absurd h hxd
      have hxstop : w.stream ∈ (poolList.filter
          (fun p => (isTranscoding p (cleanupStale st)).isSome)).filter
            (fun p => !(desired.contains p)) := by
        rw [List.mem_filter]
        refine ⟨(hactive w.stream).mpr ⟨hwx ▸ hxp, hwx ▸ hxA⟩, ?_⟩
        rw [Bool.not_eq_true', contains_false_iff]
        rw [hwx]
        exact hxd
      have := hwf.2
      rw [Bool.not_eq_true', contains_false_iff] at this
      exact absurd hxstop this
    · have : w.stream ∈ extra.map (fun u => u.stream) := List.mem_map_of_mem _ hmem
      rw [hextra] at this
      rw [← hwx]
      exact List.mem_of_mem_filter (List.mem_of_mem_filter this)
  · intro hxd
    have hxnotstop : x ∉ (poolList.filter
        (fun p => (isTranscoding p (cleanupStale st)).isSome)).filter
          (fun p => !(desired.contains p)) := by
      intro hc
      have hcf := List.mem_filter.mp hc
      rw [Bool.not_eq_true', contains_false_iff] at hcf
      exact hcf.2 hxd
    by_cases hxA : x ∈ st.workers.map (fun u => u.stream)
    · rcases List.mem_map.mp hxA with ⟨w, hw, hwx⟩
      refine ⟨w, ?_, hwx⟩
      rw [hstopfold, hst2, List.mem_filter]
      refine ⟨List.mem_append_left _ hw, ?_⟩
      rw [Bool.not_eq_true', contains_false_iff]
      rw [hwx]
      exact hxnotstop
    · have hxnew : x ∈ desired.filter (fun s =>
          !((poolList.filter (fun p =>
              (isTranscoding p (cleanupStale st)).isSome)).contains s)) := by
        rw [List.mem_filter]
        refine ⟨hxd, ?_⟩
        rw [Bool.not_eq_true', contains_false_iff]
        intro hc
        exact hxA ((hactive x).mp hc).2
      have hxextra : x ∈ extra.map (fun u => u.stream) := by
        rw [hextra, List.mem_filter]
        refine ⟨hxnew, ?_⟩
        rw [Bool.not_eq_true', contains_false_iff]
        exact hxA
      rcases List.mem_map.mp hxextra with ⟨w, hw, hwx⟩
      refine ⟨w, ?_, hwx⟩
      rw [hstopfold, hst2, List.mem_filter]
      refine ⟨List.mem_append_right _ hw, ?_⟩
      rw [Bool.not_eq_true', contains_false_iff]
      rw [hwx]
      exact hxnotstop

set_option maxRecDepth 40000

/-- C3 as stated is false: with the out-of-pool stream alpha running
and nothing desired, a cycle with no failures of any kind leaves the
alpha worker untouched — the scan enumerates only the fixed pool, so
the new running set is not the (empty) desired set. -/
theorem converge_counterexample :
    runningStreams (monitorCycle 1 [] c3Ex) = ["alpha"] ∧
    ("alpha" : String) ∉ ([] : List String) := by decide

theorem converge_witness :
    ((["alpha"] : List String).Nodup ∧
      (((initSys [1]).workers.map (fun w => w.stream)).Nodup) ∧
      (∀ i, (initSys [1]).flockHolder i = none) ∧
      (initSys [1]).heldLocks = []) ∧
    ("alpha" ∈ runningStreams (monitorCycle 1 ["alpha"] (initSys [1])) ↔
      "alpha" ∈ (["alpha"] : List String)) :=
  ⟨⟨by decide, by decide, fun i => rfl, rfl⟩,
    converge 1 ["alpha"] (initSys [1]) (by decide) (by decide)
      (by intro w hw; simp [initSys] at hw)
      (by intro w hw; simp [initSys] at hw)
      (fun i => rfl) rfl
      (by
        intro s hs t ht
        have ht2 : t = "alpha" := by
          rcases ht with h | h
          · simp [initSys] at h
          · simpa using h
        subst ht2
        rcases hs with h | h
        · simp only [poolList, List.mem_cons, List.not_mem_nil, or_false] at h
          rcases h with rfl | rfl | rfl | rfl | rfl <;> decide
        · have hs2 : s = "alpha" := by simpa using h
          subst hs2
          decide)
      "alpha"⟩

end StreamForge
